import Mathlib

/-!
Shallow embedding of `backend/internal/service/youtube_import.go` from the
bucketbird repository, together with theorems checking the natural-language
specification against it.

Strings are modelled as Lean `String` (a list of characters); Go byte-level
operations only ever act on ASCII data here, where bytes and characters
coincide.  Go `int64` values are modelled as `Int` (no arithmetic in this file
can overflow 64 bits on the inputs the code handles, and the code nowhere
relies on wraparound).
-/

namespace BucketBird

/-- Go `strings.Contains s sub`. -/
def goContains (s sub : String) : Bool :=
  decide (sub.toList <:+: s.toList)

/-- The white-space class of Go `unicode.IsSpace` restricted to the code
points Go actually treats as space in `strings.TrimSpace` / `strings.Fields`:
`'\t' '\n' '\v' '\f' '\r' ' ' U+0085 U+00A0`. -/
def isGoSpace (c : Char) : Bool :=
  c == ' ' || c == '\t' || c == '\n' || c == '\x0b' || c == '\x0c' ||
    c == '\r' || c == '\x85' || c == '\xa0'

/-- Drop the longest suffix of `l` all of whose characters satisfy `p`. -/
def dropWhileEnd (p : Char → Bool) (l : List Char) : List Char :=
  (l.reverse.dropWhile p).reverse

/-- Go `strings.TrimSpace`. -/
def goTrimSpace (s : String) : String :=
  ⟨dropWhileEnd isGoSpace (s.toList.dropWhile isGoSpace)⟩

/-- ASCII lower-casing of one character (the identity keys compared in this
file are ASCII, where this agrees with Go's Unicode simple folding). -/
def goFoldChar (c : Char) : Char :=
  if 'A' ≤ c && c ≤ 'Z' then Char.ofNat (c.toNat + 32) else c

/-- Go `strings.EqualFold` restricted to ASCII data: equality up to case. -/
def goEqualFold (a b : String) : Bool :=
  a.toList.map goFoldChar == b.toList.map goFoldChar

/-- One left-to-right pass of Go `strings.ReplaceAll s "//" "/"`: replaces
non-overlapping occurrences of `//` by `/`, resuming the scan after each
replacement. -/
def replaceDoubleSlash : List Char → List Char
  | [] => []
  | [c] => [c]
  | c1 :: c2 :: rest =>
    if c1 = '/' ∧ c2 = '/' then '/' :: replaceDoubleSlash rest
    else c1 :: replaceDoubleSlash (c2 :: rest)

/-- `normalizeObjectPrefix` from the source: trim space, strip one leading
slash, one replace pass of `//` by `/`, trim slashes from both ends, then
append a trailing slash when non-empty. -/
def normalizeObjectPrefix (pfx : String) : String :=
  let l1 := (goTrimSpace pfx).toList
  -- strings.TrimPrefix(prefix, "/") removes at most one leading slash
  let l2 := if l1.head? = some '/' then l1.tail else l1
  let l3 := replaceDoubleSlash l2
  -- strings.Trim(prefix, "/") removes every leading and trailing slash
  let l4 := dropWhileEnd (fun c => c == '/') (l3.dropWhile (fun c => c == '/'))
  if l4 = [] then "" else ⟨l4 ++ ['/']⟩

/-- The character class kept by the sanitizer regexp `[^a-zA-Z0-9\-\._ ]+`
(its complement is removed). -/
def allowedFileNameChar (c : Char) : Bool :=
  ('a' ≤ c && c ≤ 'z') || ('A' ≤ c && c ≤ 'Z') || ('0' ≤ c && c ≤ '9') ||
    c == '-' || c == '.' || c == '_' || c == ' '

/-- Go `strings.Fields`: split on runs of white space, dropping empty
fields.  `acc` holds the characters of the current field in reverse. -/
def goFieldsAux : List Char → List Char → List (List Char)
  | [], acc => if acc = [] then [] else [acc.reverse]
  | c :: rest, acc =>
    if isGoSpace c then
      if acc = [] then goFieldsAux rest [] else acc.reverse :: goFieldsAux rest []
    else goFieldsAux rest (c :: acc)

def goFields (l : List Char) : List (List Char) :=
  goFieldsAux l []

/-- `strings.Join ws "-"` on character lists. -/
def joinHyphen : List (List Char) → List Char
  | [] => []
  | [w] => w
  | w :: ws => w ++ '-' :: joinHyphen ws

/-- `sanitizeFileName` from the source: remove characters outside the
allow-list, trim space, replace `/` and `\` by `-` (none survive the filter,
kept for fidelity), then collapse white-space runs to single hyphens. -/
def sanitizeFileName (value : String) : String :=
  let v1 := value.toList.filter allowedFileNameChar
  let v2 := (goTrimSpace ⟨v1⟩).toList
  let v3 := v2.map (fun c => if c == '/' || c == '\\' then '-' else c)
  ⟨joinHyphen (goFields v3)⟩

/-- `buildYouTubeBaseName` from the source.  The sanitized name is ASCII, so
Go's byte-length cap `name[:80]` is a character cap here. -/
def buildYouTubeBaseName (title : String) : String :=
  let name := sanitizeFileName title
  let name := if name = "" then "youtube-video" else name
  if 80 < name.length then ⟨name.toList.take 80⟩ else name

/-- One transferable encoding of an item, as used by the import code.
`qualityRank` abstracts the external library's total quality order
(higher is better); `audioChannels` mirrors `youtube.Format.AudioChannels`. -/
structure Format where
  mimeType : String
  audioChannels : Nat
  qualityRank : Nat
  contentLength : Int
deriving DecidableEq, Repr

/-- A resolved video: stable id, title and its available encodings. -/
structure Video where
  id : String
  title : String
  formats : List Format
deriving DecidableEq, Repr

/-- `extensionFromMime` from the source. -/
def extensionFromMime (mimeType : String) : String :=
  if goContains mimeType "audio/mp4" then ".m4a"
  else if goContains mimeType "mp4" then ".mp4"
  else if goContains mimeType "webm" then ".webm"
  else ".bin"

/-- `contentTypeFromMime` from the source: cut at the first `;`, trim. -/
def contentTypeFromMime (mimeType : String) : String :=
  goTrimSpace ⟨mimeType.toList.takeWhile (fun c => c != ';')⟩

/-- `buildYouTubeFilename` from the source. -/
def buildYouTubeFilename (title : String) (format : Format) : String :=
  buildYouTubeBaseName title ++ extensionFromMime format.mimeType

/-- `buildYouTubeFilenameWithID` from the source (the "legacy" name). -/
def buildYouTubeFilenameWithID (title videoID : String) (format : Format) : String :=
  buildYouTubeBaseName title ++ "-" ++ videoID ++ extensionFromMime format.mimeType

/-- Descending-quality order used to model the library sort (best first). -/
def rankGE (a b : Format) : Prop :=
  b.qualityRank ≤ a.qualityRank

instance : DecidableRel rankGE := fun _ _ => inferInstanceAs (Decidable (_ ≤ _))

instance : IsTotal Format rankGE := ⟨fun a b => Nat.le_total b.qualityRank a.qualityRank⟩

instance : IsTrans Format rankGE := ⟨fun _ _ _ h1 h2 => Nat.le_trans h2 h1⟩

/-- Modelled from the spec: the external resolver library's
`FormatList.Sort`, which this repository calls but does not define, "sort by
a total-order quality ranking (descending)".  Realised as a stable insertion
sort by `qualityRank`, best first. -/
def sortFormats (l : List Format) : List Format :=
  l.insertionSort rankGE

/-- Modelled from the spec: the external library's
`FormatList.WithAudioChannels`, "restrict to encodings that carry audio". -/
def withAudioChannels (formats : List Format) : List Format :=
  formats.filter (fun f => 0 < f.audioChannels)

/-- The audio-capable encodings of a video (the set the selector starts from). -/
def audioFormats (video : Video) : List Format :=
  withAudioChannels video.formats

/-- The preferred (mp4-family) subset of the audio-capable encodings. -/
def mp4AudioFormats (video : Video) : List Format :=
  (audioFormats video).filter (fun f => goContains f.mimeType "mp4")

/-- `selectYouTubeFormat` from the source: filter to audio-capable formats,
fail when none exist, otherwise prefer the mp4 subset when non-empty, sort
the chosen candidate set by quality (best first) and take its head. -/
def selectYouTubeFormat (video : Video) : Except String Format :=
  match audioFormats video with
  | [] => .error "no downloadable formats with audio were found"
  | f0 :: rest =>
    let mp4Formats := (f0 :: rest).filter (fun f => goContains f.mimeType "mp4")
    let candidate :=
      match mp4Formats with
      | [] => sortFormats (f0 :: rest)
      | m :: ms => sortFormats (m :: ms)
    .ok (candidate.headD f0)

/-- Metadata keys written on imported objects (source constants). -/
def youtubeVideoIDMetadataKey : String := "bucketbird-video-id"

def youtubeVideoTitleMetadataKey : String := "bucketbird-video-title"

/-- `metadataMatchesYouTubeVideo` from the source: false for empty metadata
or empty video id, otherwise true iff some stored entry has the identity key
(compared case-insensitively) with exactly this video id as value. -/
def metadataMatchesYouTubeVideo (metadata : List (String × String)) (videoID : String) : Bool :=
  if metadata.length = 0 || videoID == "" then false
  else metadata.any (fun kv => goEqualFold kv.1 youtubeVideoIDMetadataKey && kv.2 == videoID)

/-- A stored destination object: content type plus its metadata tags
(modelling the store's metadata mapping as an association list). -/
structure StoredObject where
  contentType : String
  metadata : List (String × String)
deriving DecidableEq, Repr

/-- The destination store, keyed by object key; later writes shadow earlier
ones.  `head`/`put` below model the store capability at its interface
(`head` fails with NotFound exactly when no object is present). -/
abbrev ObjectStore := List (String × StoredObject)

/-- `store.HeadObject` restricted to its interface: the object at `key`, or
`none` for NotFound.  Transient store faults are injected separately. -/
def headObject (store : ObjectStore) (key : String) : Option StoredObject :=
  (store.find? (fun kv => kv.1 == key)).map (fun kv => kv.2)

/-- `store.PutObject`: write `obj` under `key`. -/
def putObject (store : ObjectStore) (key : String) (obj : StoredObject) : ObjectStore :=
  (key, obj) :: store

/-- `YouTubeImportedItem` from the source. -/
structure YouTubeImportedItem where
  title : String
  key : String
  videoID : String
  sizeBytes : Int
  contentType : String
deriving DecidableEq, Repr

/-- `YouTubeImportError` from the source. -/
structure YouTubeImportError where
  title : String
  videoID : String
  error : String
deriving DecidableEq, Repr

/-- `YouTubeImportResult` from the source. -/
structure YouTubeImportResult where
  kind : String
  imported : Nat
  skipped : Nat
  totalBytes : Int
  items : List YouTubeImportedItem
  errors : List YouTubeImportError
deriving DecidableEq, Repr

/-- Line 321-323 of the source: when the stream reports a size hint and the
chosen format declared no content length, adopt the hint. -/
def fixupContentLength (format : Format) (sizeHint : Int) : Format :=
  if format.contentLength = 0 ∧ 0 < sizeHint then
    { format with contentLength := sizeHint }
  else format

/-- The primary destination key: `prefix + sanitizedTitle + extension`. -/
def youtubePrimaryKey (pfx : String) (title : String) (format : Format) : String :=
  if pfx ≠ "" then pfx ++ buildYouTubeFilename title format
  else buildYouTubeFilename title format

/-- The legacy destination key: `prefix + sanitizedTitle-videoID + extension`. -/
def youtubeLegacyKey (pfx : String) (title videoID : String) (format : Format) : String :=
  if pfx ≠ "" then pfx ++ buildYouTubeFilenameWithID title videoID format
  else buildYouTubeFilenameWithID title videoID format

/-- Per-item behaviour of the external collaborators during one transfer:
stream-open failure, the stream's size hint, injected store faults on the two
existence checks (a `HeadObject` error that is not NotFound), write failure,
and the byte count the progress wrapper observed during a successful write. -/
structure VideoFetch where
  streamErr : Option String
  sizeHint : Int
  headPrimaryFault : Option String
  headLegacyFault : Option String
  putErr : Option String
  bytesRead : Int
deriving DecidableEq, Repr

/-- Outcome of `downloadYouTubeVideo`: the Go triple
`(*YouTubeImportedItem, bool, error)` collapsed into one sum. -/
inductive DownloadOutcome
  | failed (msg : String)
  | skipped (item : YouTubeImportedItem)
  | imported (item : YouTubeImportedItem)
deriving DecidableEq, Repr

/-- Result of one `downloadYouTubeVideo` call: its outcome, the store after
the call, and how many times `Close` ran on the underlying source stream
(counting both the direct `defer stream.Close()` and the deferred
`progressReader.Close()`, whose body is `p.rc.Close()`). -/
structure DownloadStep where
  outcome : DownloadOutcome
  store : ObjectStore
  closeCount : Nat
deriving DecidableEq, Repr

/-- The tail of `downloadYouTubeVideo` after the primary metadata check did
not report a skip: the legacy existence check, key fallback, and the write.
`primaryExists` records whether `primaryHead` was non-nil. -/
def downloadAfterPrimary (store : ObjectStore) (video : Video) (fetch : VideoFetch)
    (contentType primaryKey legacyKey : String) (format : Format)
    (primaryExists : Bool) : DownloadStep :=
  match fetch.headLegacyFault with
  | some msg => ⟨.failed msg, store, 1⟩
  | none =>
    match headObject store legacyKey with
    | some _ =>
      ⟨.skipped ⟨video.title, legacyKey, video.id, 0, contentType⟩, store, 1⟩
    | none =>
      -- A file already exists with the desired title: fall back to the
      -- legacy naming that includes the video id
      let key := if primaryExists then legacyKey else primaryKey
      let metadata :=
        (youtubeVideoIDMetadataKey, video.id) ::
          (if video.title ≠ "" then [(youtubeVideoTitleMetadataKey, video.title)] else [])
      -- the progress wrapper now exists: both deferred Closes will run
      match fetch.putErr with
      | some msg => ⟨.failed msg, store, 2⟩
      | none =>
        let size :=
          if fetch.bytesRead = 0 ∧ 0 < format.contentLength then format.contentLength
          else fetch.bytesRead
        ⟨.imported ⟨video.title, key, video.id, size, contentType⟩,
          putObject store key ⟨contentType, metadata⟩, 2⟩

/-- `downloadYouTubeVideo` from the source.  Progress events are write-only
output to an injected sink and cannot influence any returned value, so they
are not modelled here; the progress wrapper itself is modelled separately.
After a successful stream open, `defer stream.Close()` is active, so every
later return closes the stream once; after the progress wrapper is built
(just before the write), its own deferred `Close` closes the stream a second
time. -/
def downloadYouTubeVideo (store : ObjectStore) (pfx : String) (video : Video)
    (fetch : VideoFetch) : DownloadStep :=
  match selectYouTubeFormat video with
  | .error msg => ⟨.failed msg, store, 0⟩
  | .ok format =>
    match fetch.streamErr with
    | some msg => ⟨.failed msg, store, 0⟩
    | none =>
      let format := fixupContentLength format fetch.sizeHint
      let contentType := contentTypeFromMime format.mimeType
      let primaryKey := youtubePrimaryKey pfx video.title format
      let legacyKey := youtubeLegacyKey pfx video.title video.id format
      match fetch.headPrimaryFault with
      | some msg => ⟨.failed msg, store, 1⟩
      | none =>
        match headObject store primaryKey with
        | some primaryObj =>
          if metadataMatchesYouTubeVideo primaryObj.metadata video.id then
            ⟨.skipped ⟨video.title, primaryKey, video.id, 0, contentType⟩, store, 1⟩
          else
            downloadAfterPrimary store video fetch contentType primaryKey legacyKey
              format true
        | none =>
          downloadAfterPrimary store video fetch contentType primaryKey legacyKey
            format false

/-- A playlist entry as enumerated by the collection handle (id and title
are what the error path records). -/
structure PlaylistEntry where
  id : String
  title : String
deriving DecidableEq, Repr

/-- Behaviour of the external resolver for one reference: either
`GetPlaylistContext` succeeds (each member then materialises to a video or
fails with a message), or it fails with an error other than
`ErrInvalidPlaylist` (fatal), or it fails with `ErrInvalidPlaylist` and
`GetVideoContext` then succeeds or fails. -/
inductive ResolveInput
  | playlistOk (entries : List (PlaylistEntry × Except String Video))
  | playlistFatal (msg : String)
  | videoOk (video : Video)
  | videoFatal (msg : String)

/-- `videosFromPlaylist` from the source: resolve each member independently;
a member failure is recorded as an import error and the member is dropped,
order of the surviving videos following the playlist order. -/
def videosFromPlaylist :
    List (PlaylistEntry × Except String Video) → List Video × List YouTubeImportError
  | [] => ([], [])
  | e :: rest =>
    let tail := videosFromPlaylist rest
    match e.2 with
    | .error msg => (tail.1, ⟨e.1.title, e.1.id, msg⟩ :: tail.2)
    | .ok v => (v :: tail.1, tail.2)

/-- `resolveYouTubeVideos` from the source: try the reference as a playlist;
on `ErrInvalidPlaylist` reinterpret as a single video; any other resolution
failure is fatal.  Returns the videos, the result kind, and the member
errors recorded into the result before the main loop. -/
def resolveYouTubeVideos (input : ResolveInput) :
    Except String (List Video × String × List YouTubeImportError) :=
  match input with
  | .playlistOk entries =>
    let (vs, errs) := videosFromPlaylist entries
    .ok (vs, "playlist", errs)
  | .playlistFatal msg => .error ("failed to load playlist: " ++ msg)
  | .videoOk v => .ok ([v], "video", [])
  | .videoFatal msg => .error ("failed to load video: " ++ msg)

/-- Environment of one `ImportYouTube` call: fatal faults of the two
pre-resolution collaborators (`getBucketName`, `GetObjectStore`), the
resolver behaviour, the per-item transfer behaviour (indexed by loop
position), and the first loop index at which `ctx.Err()` reports
cancellation (`none` when the context is never cancelled). -/
structure ImportEnv where
  bucketErr : Option String
  storeErr : Option String
  resolveInput : ResolveInput
  fetch : Nat → VideoFetch
  cancelAt : Option Nat

/-- Whether `ctx.Err()` is non-nil at the top of loop iteration `i`
(cancellation is monotone: once requested it stays requested). -/
def ctxCancelled (cancelAt : Option Nat) (i : Nat) : Bool :=
  match cancelAt with
  | some j => j ≤ i
  | none => false

/-- The main loop of `ImportYouTube` (lines 132-218): per item, check
cancellation, run the transfer, and record exactly one outcome (error,
skip, or imported item) into the accumulating result. -/
def importLoop (pfx : String) (fetch : Nat → VideoFetch) (cancelAt : Option Nat) :
    List Video → Nat → YouTubeImportResult → ObjectStore →
    Except String (YouTubeImportResult × ObjectStore)
  | [], _, result, store => .ok (result, store)
  | video :: rest, i, result, store =>
    if ctxCancelled cancelAt i then .error "context canceled"
    else
      let step := downloadYouTubeVideo store pfx video (fetch i)
      match step.outcome with
        | .failed msg =>
          importLoop pfx fetch cancelAt rest (i + 1)
            { result with errors := result.errors ++ [⟨video.title, video.id, msg⟩] }
            step.store
        | .skipped _ =>
          importLoop pfx fetch cancelAt rest (i + 1)
            { result with skipped := result.skipped + 1 } step.store
        | .imported item =>
          importLoop pfx fetch cancelAt rest (i + 1)
            { result with
                items := result.items ++ [item]
                imported := result.imported + 1
                totalBytes := result.totalBytes + item.sizeBytes }
            step.store

/-- `ImportYouTube` from the source.  Progress events are write-only output
to an injected, possibly absent sink and cannot influence the returned
result, so they are not modelled; the post-batch bucket-size recomputation
is a detached task whose outcome is only logged, likewise not modelled.
Returns the final result together with the destination store state. -/
def ImportYouTube (url : String) (destinationPre : String) (env : ImportEnv)
    (store : ObjectStore) : Except String (YouTubeImportResult × ObjectStore) :=
  if goTrimSpace url = "" then .error "youtube url is required"
  else
    match env.bucketErr with
    | some msg => .error msg
    | none =>
      match env.storeErr with
      | some msg => .error msg
      | none =>
        match resolveYouTubeVideos env.resolveInput with
        | .error msg => .error msg
        | .ok (videos, kind, resolveErrors) =>
          let pfx := normalizeObjectPrefix destinationPre
          let init : YouTubeImportResult :=
            { kind := kind, imported := 0, skipped := 0, totalBytes := 0,
              items := [], errors := resolveErrors }
          importLoop pfx env.fetch env.cancelAt videos 0 init store

/-- One emitted progress sample: bytes read so far, expected total, and
instantaneous throughput (Go float64 arithmetic modelled over ℚ; the
claims checked here do not depend on rounding). -/
structure ProgressSample where
  bytesRead : Int
  total : Int
  speed : ℚ
deriving DecidableEq, Repr

/-- State of `progressReader`: the wrapped counters plus the sequence of
samples emitted so far (the synchronous callback's observations).
`hasCallback` is whether a callback was registered; times are a monotone
millisecond clock. -/
structure ProgressReaderState where
  total : Int
  read : Int
  lastBytes : Int
  lastTime : Nat
  hasCallback : Bool
  emissions : List ProgressSample
deriving DecidableEq, Repr

/-- `newProgressReader` from the source (`lastTime := time.Now()`). -/
def newProgressReader (total : Int) (startTime : Nat) (hasCallback : Bool) :
    ProgressReaderState :=
  { total := total, read := 0, lastBytes := 0, lastTime := startTime,
    hasCallback := hasCallback, emissions := [] }

/-- `progressReader.report` from the source: skip without a callback; skip
unforced reports within 500ms of the last emission; otherwise emit a sample
carrying the running byte count, the expected total and the throughput since
the last emission, then reset the window. -/
def progressReport (p : ProgressReaderState) (force : Bool) (now : Nat) :
    ProgressReaderState :=
  if p.hasCallback = false then p
  else if force = false ∧ now - p.lastTime < 500 then p
  else
    let deltaBytes := p.read - p.lastBytes
    let deltaMs := now - p.lastTime
    let speed : ℚ := if 0 < deltaMs then (deltaBytes : ℚ) / ((deltaMs : ℚ) / 1000) else 0
    { p with emissions := p.emissions ++ [⟨p.read, p.total, speed⟩],
             lastTime := now, lastBytes := p.read }

/-- Result of one underlying `rc.Read` call: no error, end of stream, or
another read error. -/
inductive ReadResult
  | ok
  | eof
  | other (msg : String)
deriving DecidableEq, Repr

/-- One call to `progressReader.Read`: the underlying read returned `n`
bytes and `err`; `t1`/`t2` are the `time.Now()` values observed by the
unforced and the forced `report` call of this step. -/
structure ReadStep where
  n : Nat
  err : ReadResult
  t1 : Nat
  t2 : Nat
deriving DecidableEq, Repr

/-- `progressReader.Read` from the source: on data, accumulate and report
unforced; on `io.EOF`, report forced. -/
def progressRead (p : ProgressReaderState) (s : ReadStep) : ProgressReaderState :=
  let p1 := if 0 < s.n then progressReport { p with read := p.read + s.n } false s.t1 else p
  if s.err = .eof then progressReport p1 true s.t2 else p1

/-- A whole read sequence through the progress reader. -/
def progressRun (p : ProgressReaderState) : List ReadStep → ProgressReaderState
  | [] => p
  | s :: rest => progressRun (progressRead p s) rest

/-! ### Helper lemmas -/

theorem sortFormats_perm (l : List Format) : List.Perm (sortFormats l) l :=
  List.perm_insertionSort rankGE l

theorem sortFormats_sorted (l : List Format) : List.Sorted rankGE (sortFormats l) :=
  List.sorted_insertionSort rankGE l

theorem sortFormats_ne_nil {l : List Format} (h : l ≠ []) : sortFormats l ≠ [] := by
  intro hs
  exact h (List.Perm.eq_nil ((sortFormats_perm l).symm.trans (hs ▸ List.Perm.refl _)))

/-- The head of the sorted candidate list bounds the quality rank of every
candidate. -/
theorem headD_sortFormats_max {l : List Format} (d : Format) (hne : l ≠ [])
    {g : Format} (hg : g ∈ l) :
    g.qualityRank ≤ ((sortFormats l).headD d).qualityRank := by
  rcases hs : sortFormats l with _ | ⟨a, t⟩
  · exact absurd hs (sortFormats_ne_nil hne)
  · have hmem : g ∈ sortFormats l := (sortFormats_perm l).mem_iff.mpr hg
    rw [hs] at hmem
    have hsorted := sortFormats_sorted l
    rw [hs] at hsorted
    rcases List.mem_cons.mp hmem with rfl | hmem
    · simp
    · simpa using List.rel_of_sorted_cons hsorted g hmem

theorem headD_sortFormats_mem {l : List Format} (d : Format) (hne : l ≠ []) :
    (sortFormats l).headD d ∈ l := by
  rcases hs : sortFormats l with _ | ⟨a, t⟩
  · exact absurd hs (sortFormats_ne_nil hne)
  · have : a ∈ sortFormats l := by rw [hs]; simp
    simpa using (sortFormats_perm l).mem_iff.mp this

/-! ### C5: format selection -/

/-- C5: `selectYouTubeFormat` fails exactly when no encoding of the item
carries audio; when it succeeds it returns an audio-capable encoding, chosen
from the mp4 (preferred-family) subset whenever that subset is non-empty and
otherwise from the full audio-capable set, and its quality rank bounds every
candidate of the set it was chosen from (the best element of the descending
quality order).  Choice is deterministic since `selectYouTubeFormat` is a
function of the source metadata. -/
theorem selectYouTubeFormat_spec (video : Video) :
    ((∃ msg, selectYouTubeFormat video = .error msg) ↔ audioFormats video = []) ∧
    (∀ f, selectYouTubeFormat video = .ok f →
      f ∈ audioFormats video ∧ 0 < f.audioChannels ∧
      (mp4AudioFormats video ≠ [] →
        f ∈ mp4AudioFormats video ∧
          ∀ g ∈ mp4AudioFormats video, g.qualityRank ≤ f.qualityRank) ∧
      (mp4AudioFormats video = [] →
        ∀ g ∈ audioFormats video, g.qualityRank ≤ f.qualityRank)) := by
  rcases haud : audioFormats video with _ | ⟨f0, rest⟩
  · constructor
    · constructor
      · intro _
        rfl
      · intro _
        exact ⟨"no downloadable formats with audio were found", by
          simp [selectYouTubeFormat, haud]⟩
    · intro f hf
      simp [selectYouTubeFormat, haud] at hf
  · have hmp4 : mp4AudioFormats video =
        (f0 :: rest).filter (fun f => goContains f.mimeType "mp4") := by
      rw [mp4AudioFormats, haud]
    constructor
    · constructor
      · rintro ⟨msg, hmsg⟩
        rcases hfil : (f0 :: rest).filter (fun f => goContains f.mimeType "mp4") with
          _ | ⟨m, ms⟩ <;>
          simp [selectYouTubeFormat, haud, hfil] at hmsg
      · intro h
        exact absurd h (by simp)
    · intro f hf
      rcases hfil : (f0 :: rest).filter (fun f => goContains f.mimeType "mp4") with
        _ | ⟨m, ms⟩
      · -- preferred subset empty: the best of the full audio-capable set
        simp only [selectYouTubeFormat, haud, hfil] at hf
        have hfeq : (sortFormats (f0 :: rest)).headD f0 = f := by
          cases hf; rfl
        have hmem : f ∈ f0 :: rest := hfeq ▸ headD_sortFormats_mem f0 (by simp)
        have hmemaud : f ∈ audioFormats video := haud.symm ▸ hmem
        refine ⟨hmem, ?_, ?_, ?_⟩
        · rw [audioFormats, withAudioChannels] at hmemaud
          simpa using (List.mem_filter.mp hmemaud).2
        · intro hne
          exact absurd (hmp4.trans hfil) hne
        · intro _ g hg
          rw [← hfeq]
          exact headD_sortFormats_max f0 (by simp) hg
      · -- preferred subset non-empty: the best of the mp4 subset
        simp only [selectYouTubeFormat, haud, hfil] at hf
        have hfeq : (sortFormats (m :: ms)).headD f0 = f := by
          cases hf; rfl
        have hmemm : f ∈ m :: ms := hfeq ▸ headD_sortFormats_mem f0 (by simp)
        have hmemfil : f ∈ (f0 :: rest).filter (fun f => goContains f.mimeType "mp4") := by
          rw [hfil]; exact hmemm
        have hmem : f ∈ f0 :: rest := (List.mem_filter.mp hmemfil).1
        have hmemaud : f ∈ audioFormats video := haud.symm ▸ hmem
        refine ⟨hmem, ?_, ?_, ?_⟩
        · rw [audioFormats, withAudioChannels] at hmemaud
          simpa using (List.mem_filter.mp hmemaud).2
        · intro _
          constructor
          · rw [hmp4]; exact hmemfil
          · intro g hg
            rw [hmp4, hfil] at hg
            rw [← hfeq]
            exact headD_sortFormats_max f0 (by simp) hg
        · intro hempty
          exact absurd (hmp4.trans hfil) (by simp [hempty])

/-- Concrete item exercising the C5 witness: an audio-less mp4 encoding, an
audio webm encoding of higher rank, and an audio mp4 encoding. -/
def exSelVideo : Video :=
  ⟨"idW", "t", [⟨"video/mp4", 0, 99, 0⟩, ⟨"video/webm", 2, 20, 0⟩, ⟨"video/mp4", 2, 10, 0⟩]⟩

/-- Witness for C5 at a concrete item: the selector picks the audio mp4
encoding (preferred family beats the higher-ranked webm), which is a member
of the mp4 subset. -/
theorem selectYouTubeFormat_spec_witness :
    selectYouTubeFormat exSelVideo = .ok ⟨"video/mp4", 2, 10, 0⟩ ∧
    (⟨"video/mp4", 2, 10, 0⟩ : Format) ∈ mp4AudioFormats exSelVideo :=
  have h : selectYouTubeFormat exSelVideo = .ok ⟨"video/mp4", 2, 10, 0⟩ := rfl
  ⟨h, (((selectYouTubeFormat_spec exSelVideo).2 _ h).2.2.1 (by decide)).1⟩

/-! ### C10: identity-metadata matching -/

theorem metadataMatches_empty_id (md : List (String × String)) :
    metadataMatchesYouTubeVideo md "" = false := by
  simp [metadataMatchesYouTubeVideo]

theorem metadataMatches_empty_md (vid : String) :
    metadataMatchesYouTubeVideo [] vid = false := by
  simp [metadataMatchesYouTubeVideo]

/-- A skip reported by the tail of the transfer (after the primary metadata
check declined) always carries the legacy key. -/
theorem downloadAfterPrimary_skipped_eq
    (store : ObjectStore) (video : Video) (fetch : VideoFetch)
    (ct pk lk : String) (fm : Format) (pe : Bool) (item : YouTubeImportedItem)
    (h : (downloadAfterPrimary store video fetch ct pk lk fm pe).outcome = .skipped item) :
    item = ⟨video.title, lk, video.id, 0, ct⟩ := by
  unfold downloadAfterPrimary at h
  rcases hlf : fetch.headLegacyFault with _ | msg <;> rw [hlf] at h
  · rcases hlo : headObject store lk with _ | obj <;> rw [hlo] at h
    · rcases hpe : fetch.putErr with _ | msg <;> rw [hpe] at h <;> simp_all
    · cases h
      rfl
  · simp at h

/-! Branch equations for `downloadYouTubeVideo`, used to keep later case
analyses cheap. -/

theorem download_eq_failFormat (store : ObjectStore) (pfx : String) (video : Video)
    (fetch : VideoFetch) (msg : String)
    (hsel : selectYouTubeFormat video = .error msg) :
    downloadYouTubeVideo store pfx video fetch = ⟨.failed msg, store, 0⟩ := by
  simp only [downloadYouTubeVideo, hsel]

theorem download_eq_failStream (store : ObjectStore) (pfx : String) (video : Video)
    (fetch : VideoFetch) (fm : Format) (msg : String)
    (hsel : selectYouTubeFormat video = .ok fm) (hse : fetch.streamErr = some msg) :
    downloadYouTubeVideo store pfx video fetch = ⟨.failed msg, store, 0⟩ := by
  simp only [downloadYouTubeVideo, hsel, hse]

theorem download_eq_failHeadPrimary (store : ObjectStore) (pfx : String) (video : Video)
    (fetch : VideoFetch) (fm : Format) (msg : String)
    (hsel : selectYouTubeFormat video = .ok fm) (hse : fetch.streamErr = none)
    (hpf : fetch.headPrimaryFault = some msg) :
    downloadYouTubeVideo store pfx video fetch = ⟨.failed msg, store, 1⟩ := by
  simp only [downloadYouTubeVideo, hsel, hse, hpf]

theorem download_eq_skipPrimary (store : ObjectStore) (pfx : String) (video : Video)
    (fetch : VideoFetch) (fm : Format) (obj : StoredObject)
    (hsel : selectYouTubeFormat video = .ok fm) (hse : fetch.streamErr = none)
    (hpf : fetch.headPrimaryFault = none)
    (hpo : headObject store
      (youtubePrimaryKey pfx video.title (fixupContentLength fm fetch.sizeHint)) = some obj)
    (hmm : metadataMatchesYouTubeVideo obj.metadata video.id = true) :
    downloadYouTubeVideo store pfx video fetch =
      ⟨.skipped ⟨video.title,
          youtubePrimaryKey pfx video.title (fixupContentLength fm fetch.sizeHint),
          video.id, 0,
          contentTypeFromMime (fixupContentLength fm fetch.sizeHint).mimeType⟩,
        store, 1⟩ := by
  simp only [downloadYouTubeVideo, hsel, hse, hpf, hpo, hmm, if_true]

theorem download_eq_afterPrimary_some (store : ObjectStore) (pfx : String) (video : Video)
    (fetch : VideoFetch) (fm : Format) (obj : StoredObject)
    (hsel : selectYouTubeFormat video = .ok fm) (hse : fetch.streamErr = none)
    (hpf : fetch.headPrimaryFault = none)
    (hpo : headObject store
      (youtubePrimaryKey pfx video.title (fixupContentLength fm fetch.sizeHint)) = some obj)
    (hmm : metadataMatchesYouTubeVideo obj.metadata video.id = false) :
    downloadYouTubeVideo store pfx video fetch =
      downloadAfterPrimary store video fetch
        (contentTypeFromMime (fixupContentLength fm fetch.sizeHint).mimeType)
        (youtubePrimaryKey pfx video.title (fixupContentLength fm fetch.sizeHint))
        (youtubeLegacyKey pfx video.title video.id (fixupContentLength fm fetch.sizeHint))
        (fixupContentLength fm fetch.sizeHint) true := by
  simp only [downloadYouTubeVideo, hsel, hse, hpf, hpo, hmm, if_false, Bool.false_eq_true]

theorem download_eq_afterPrimary_none (store : ObjectStore) (pfx : String) (video : Video)
    (fetch : VideoFetch) (fm : Format)
    (hsel : selectYouTubeFormat video = .ok fm) (hse : fetch.streamErr = none)
    (hpf : fetch.headPrimaryFault = none)
    (hpo : headObject store
      (youtubePrimaryKey pfx video.title (fixupContentLength fm fetch.sizeHint)) = none) :
    downloadYouTubeVideo store pfx video fetch =
      downloadAfterPrimary store video fetch
        (contentTypeFromMime (fixupContentLength fm fetch.sizeHint).mimeType)
        (youtubePrimaryKey pfx video.title (fixupContentLength fm fetch.sizeHint))
        (youtubeLegacyKey pfx video.title video.id (fixupContentLength fm fetch.sizeHint))
        (fixupContentLength fm fetch.sizeHint) false := by
  simp only [downloadYouTubeVideo, hsel, hse, hpf, hpo]

/-- The length gap between the two destination keys of one item. -/
theorem legacyKey_length (pfx title videoID : String) (fm : Format) :
    (youtubeLegacyKey pfx title videoID fm).length =
      (youtubePrimaryKey pfx title fm).length + 1 + videoID.length := by
  have hhy : ("-" : String).length = 1 := rfl
  unfold youtubeLegacyKey youtubePrimaryKey buildYouTubeFilenameWithID buildYouTubeFilename
  by_cases hp : pfx = "" <;> simp [hp, String.length_append, hhy] <;> omega

/-- The legacy key never coincides with the primary key (it is one hyphen
and the video id longer). -/
theorem legacyKey_ne_primaryKey (pfx title videoID : String) (fm : Format) :
    youtubeLegacyKey pfx title videoID fm ≠ youtubePrimaryKey pfx title fm := by
  intro h
  have hlen := legacyKey_length pfx title videoID fm
  rw [h] at hlen
  omega

/-- C10: identity-metadata matching compares the identity tag's key
case-insensitively (via `goEqualFold`) against the stored keys and the value
exactly; it returns false whenever the metadata map is empty or the item's
sourceId is empty; hence an item with an empty sourceId is never skipped via
the primary-key metadata check — any skip it receives carries the legacy
key, which differs from the primary key. -/
theorem metadataMatches_identity_spec :
    (∀ (md : List (String × String)) (vid : String),
      metadataMatchesYouTubeVideo md vid = true ↔
        (vid ≠ "" ∧ ∃ kv ∈ md,
          goEqualFold kv.1 youtubeVideoIDMetadataKey = true ∧ kv.2 = vid)) ∧
    (∀ md, metadataMatchesYouTubeVideo md "" = false) ∧
    (∀ vid, metadataMatchesYouTubeVideo [] vid = false) ∧
    (∀ (store : ObjectStore) (pfx : String) (video : Video) (fetch : VideoFetch)
        (fm : Format) (item : YouTubeImportedItem),
      video.id = "" →
      selectYouTubeFormat video = .ok fm →
      (downloadYouTubeVideo store pfx video fetch).outcome = .skipped item →
      item.key =
        youtubeLegacyKey pfx video.title video.id (fixupContentLength fm fetch.sizeHint) ∧
      item.key ≠
        youtubePrimaryKey pfx video.title (fixupContentLength fm fetch.sizeHint)) := by
  refine ⟨?_, metadataMatches_empty_id, metadataMatches_empty_md, ?_⟩
  · intro md vid
    by_cases hvid : vid = ""
    · subst hvid
      simp [metadataMatchesYouTubeVideo]
    · by_cases hmd : md = []
      · subst hmd
        simp [metadataMatchesYouTubeVideo]
      · have hcond : (md.length = 0 || vid == "") = false := by
          simp [List.length_eq_zero, hmd, hvid]
        rw [metadataMatchesYouTubeVideo, hcond]
        simp [List.any_eq_true, hvid, and_assoc]
  · intro store pfx video fetch fm item hid hsel h
    rcases hse : fetch.streamErr with _ | msg
    · rcases hpf : fetch.headPrimaryFault with _ | msg
      · rcases hpo : headObject store
            (youtubePrimaryKey pfx video.title (fixupContentLength fm fetch.sizeHint)) with
          _ | obj
        · rw [download_eq_afterPrimary_none store pfx video fetch fm hsel hse hpf hpo] at h
          have := downloadAfterPrimary_skipped_eq _ _ _ _ _ _ _ _ _ h
          subst this
          exact ⟨rfl, legacyKey_ne_primaryKey _ _ _ _⟩
        · have hmm : metadataMatchesYouTubeVideo obj.metadata video.id = false := by
            rw [hid]; exact metadataMatches_empty_id _
          rw [download_eq_afterPrimary_some store pfx video fetch fm obj hsel hse hpf
            hpo hmm] at h
          have := downloadAfterPrimary_skipped_eq _ _ _ _ _ _ _ _ _ h
          subst this
          exact ⟨rfl, legacyKey_ne_primaryKey _ _ _ _⟩
      · rw [download_eq_failHeadPrimary store pfx video fetch fm msg hsel hse hpf] at h
        simp at h
    · rw [download_eq_failStream store pfx video fetch fm msg hsel hse] at h
      simp at h

/-- Witness for C10: a video with empty id whose primary key already holds
an object tagged with an empty identity value is still not matched
(`metadataMatchesYouTubeVideo` is false), and the iff confirms a
case-folded key match on a non-empty id. -/
theorem metadataMatches_identity_spec_witness :
    metadataMatchesYouTubeVideo [("bucketbird-video-id", "")] "" = false ∧
    metadataMatchesYouTubeVideo [("Bucketbird-Video-ID", "abc")] "abc" = true :=
  ⟨metadataMatches_identity_spec.2.1 _,
    (metadataMatches_identity_spec.1 _ _).mpr
      ⟨by decide, ("Bucketbird-Video-ID", "abc"), by decide, by decide, rfl⟩⟩

/-! ### Store and transfer-tail lemmas -/

theorem headObject_putObject_self (store : ObjectStore) (key : String) (obj : StoredObject) :
    headObject (putObject store key obj) key = some obj := by
  simp [headObject, putObject]

theorem headObject_putObject_ne (store : ObjectStore) (key : String) (obj : StoredObject)
    (k : String) (h : k ≠ key) :
    headObject (putObject store key obj) k = headObject store k := by
  simp only [headObject, putObject, List.find?]
  have : (key == k) = false := by simpa using fun he => h he.symm
  rw [this]

theorem afterPrimary_eq_failLegacy (store : ObjectStore) (video : Video)
    (fetch : VideoFetch) (ct pk lk : String) (fm : Format) (pe : Bool) (msg : String)
    (hlf : fetch.headLegacyFault = some msg) :
    downloadAfterPrimary store video fetch ct pk lk fm pe = ⟨.failed msg, store, 1⟩ := by
  simp only [downloadAfterPrimary, hlf]

theorem afterPrimary_eq_skipLegacy (store : ObjectStore) (video : Video)
    (fetch : VideoFetch) (ct pk lk : String) (fm : Format) (pe : Bool) (lobj : StoredObject)
    (hlf : fetch.headLegacyFault = none) (hlo : headObject store lk = some lobj) :
    downloadAfterPrimary store video fetch ct pk lk fm pe =
      ⟨.skipped ⟨video.title, lk, video.id, 0, ct⟩, store, 1⟩ := by
  simp only [downloadAfterPrimary, hlf, hlo]

theorem afterPrimary_eq_putErr (store : ObjectStore) (video : Video)
    (fetch : VideoFetch) (ct pk lk : String) (fm : Format) (pe : Bool) (msg : String)
    (hlf : fetch.headLegacyFault = none) (hlo : headObject store lk = none)
    (hpe : fetch.putErr = some msg) :
    downloadAfterPrimary store video fetch ct pk lk fm pe = ⟨.failed msg, store, 2⟩ := by
  simp only [downloadAfterPrimary, hlf, hlo, hpe]

theorem afterPrimary_eq_put (store : ObjectStore) (video : Video)
    (fetch : VideoFetch) (ct pk lk : String) (fm : Format) (pe : Bool)
    (hlf : fetch.headLegacyFault = none) (hlo : headObject store lk = none)
    (hpe : fetch.putErr = none) :
    downloadAfterPrimary store video fetch ct pk lk fm pe =
      ⟨.imported ⟨video.title, (if pe then lk else pk), video.id,
          (if fetch.bytesRead = 0 ∧ 0 < fm.contentLength then fm.contentLength
           else fetch.bytesRead), ct⟩,
        putObject store (if pe then lk else pk)
          ⟨ct, (youtubeVideoIDMetadataKey, video.id) ::
            (if video.title ≠ "" then [(youtubeVideoTitleMetadataKey, video.title)]
             else [])⟩,
        2⟩ := by
  simp only [downloadAfterPrimary, hlf, hlo, hpe]

/-- Shape of the transfer tail: fail before the wrapper (store untouched, one
close), fail at the write (store untouched, two closes), skip (store
untouched, one close), or import (a fresh key is written, two closes). -/
theorem afterPrimary_shape (store : ObjectStore) (video : Video)
    (fetch : VideoFetch) (ct pk lk : String) (fm : Format) (pe : Bool)
    (hpkn : pe = false → headObject store pk = none) :
    (∃ msg, downloadAfterPrimary store video fetch ct pk lk fm pe =
      ⟨.failed msg, store, 1⟩) ∨
    (∃ msg, downloadAfterPrimary store video fetch ct pk lk fm pe =
      ⟨.failed msg, store, 2⟩) ∨
    (∃ item, downloadAfterPrimary store video fetch ct pk lk fm pe =
      ⟨.skipped item, store, 1⟩) ∨
    (∃ item obj, downloadAfterPrimary store video fetch ct pk lk fm pe =
        ⟨.imported item, putObject store item.key obj, 2⟩ ∧
      headObject store item.key = none) := by
  rcases hlf : fetch.headLegacyFault with _ | msg
  · rcases hlo : headObject store lk with _ | lobj
    · rcases hpe : fetch.putErr with _ | msg
      · right; right; right
        refine ⟨_, _, afterPrimary_eq_put store video fetch ct pk lk fm pe hlf hlo hpe, ?_⟩
        cases pe
        · simpa using hpkn rfl
        · simpa using hlo
      · right; left
        exact ⟨msg, afterPrimary_eq_putErr store video fetch ct pk lk fm pe msg hlf hlo hpe⟩
    · right; right; left
      exact ⟨_, afterPrimary_eq_skipLegacy store video fetch ct pk lk fm pe lobj hlf hlo⟩
  · left
    exact ⟨msg, afterPrimary_eq_failLegacy store video fetch ct pk lk fm pe msg hlf⟩

/-- Shape of one whole transfer: every possible return, with the store it
leaves behind and the number of closes of the source stream. -/
theorem download_shape (store : ObjectStore) (pfx : String) (video : Video)
    (fetch : VideoFetch) :
    (∃ msg, downloadYouTubeVideo store pfx video fetch = ⟨.failed msg, store, 0⟩ ∧
      (selectYouTubeFormat video = .error msg ∨ fetch.streamErr = some msg)) ∨
    (∃ msg, downloadYouTubeVideo store pfx video fetch = ⟨.failed msg, store, 1⟩) ∨
    (∃ msg, downloadYouTubeVideo store pfx video fetch = ⟨.failed msg, store, 2⟩) ∨
    (∃ item, downloadYouTubeVideo store pfx video fetch = ⟨.skipped item, store, 1⟩) ∨
    (∃ item obj, downloadYouTubeVideo store pfx video fetch =
        ⟨.imported item, putObject store item.key obj, 2⟩ ∧
      headObject store item.key = none) := by
  rcases hselc : selectYouTubeFormat video with msg | fm
  · exact .inl ⟨msg, download_eq_failFormat store pfx video fetch msg hselc, .inl rfl⟩
  · rcases hse : fetch.streamErr with _ | msg
    · rcases hpf : fetch.headPrimaryFault with _ | msg
      · rcases hpo : headObject store
            (youtubePrimaryKey pfx video.title (fixupContentLength fm fetch.sizeHint)) with
          _ | obj
        · have heq := download_eq_afterPrimary_none store pfx video fetch fm hselc hse hpf hpo
          rw [heq]
          have := afterPrimary_shape store video fetch
            (contentTypeFromMime (fixupContentLength fm fetch.sizeHint).mimeType)
            (youtubePrimaryKey pfx video.title (fixupContentLength fm fetch.sizeHint))
            (youtubeLegacyKey pfx video.title video.id (fixupContentLength fm fetch.sizeHint))
            (fixupContentLength fm fetch.sizeHint) false (fun _ => hpo)
          tauto
        · rcases hmm : metadataMatchesYouTubeVideo obj.metadata video.id with _ | _
          · have heq := download_eq_afterPrimary_some store pfx video fetch fm obj
              hselc hse hpf hpo hmm
            rw [heq]
            have := afterPrimary_shape store video fetch
              (contentTypeFromMime (fixupContentLength fm fetch.sizeHint).mimeType)
              (youtubePrimaryKey pfx video.title (fixupContentLength fm fetch.sizeHint))
              (youtubeLegacyKey pfx video.title video.id (fixupContentLength fm fetch.sizeHint))
              (fixupContentLength fm fetch.sizeHint) true (fun h => by cases h)
            tauto
          · right; right; right; left
            exact ⟨_, download_eq_skipPrimary store pfx video fetch fm obj
              hselc hse hpf hpo hmm⟩
      · right; left
        exact ⟨msg, download_eq_failHeadPrimary store pfx video fetch fm msg hselc hse hpf⟩
    · exact .inl ⟨msg, download_eq_failStream store pfx video fetch fm msg hselc hse, .inr rfl⟩

/-! ### C2: naming/dedup plan ordering -/

/-- C2: the dedup plan checks the store in this exact order — (1) an object
at the primary key whose metadata carries this item's sourceId: skip with
the primary key and leave the store untouched; (2) else an object at the
legacy key: skip with the legacy key, store untouched; (3) else an object at
the primary key without matching identity: the write targets the legacy key
and the object at the primary key survives unchanged; (4) else the write
targets the primary key.  `pk`/`lk` name the two derived keys and `ct` the
derived content type of the chosen (length-fixed) encoding `f2`. -/
theorem dedup_plan_spec (store : ObjectStore) (pfx : String) (video : Video)
    (fetch : VideoFetch) (fm f2 : Format) (ct pk lk : String)
    (hsel : selectYouTubeFormat video = .ok fm)
    (hse : fetch.streamErr = none)
    (hpf : fetch.headPrimaryFault = none)
    (hlf : fetch.headLegacyFault = none)
    (hf2 : f2 = fixupContentLength fm fetch.sizeHint)
    (hct : ct = contentTypeFromMime f2.mimeType)
    (hpk : pk = youtubePrimaryKey pfx video.title f2)
    (hlk : lk = youtubeLegacyKey pfx video.title video.id f2) :
    (∀ obj, headObject store pk = some obj →
      metadataMatchesYouTubeVideo obj.metadata video.id = true →
      downloadYouTubeVideo store pfx video fetch =
        ⟨.skipped ⟨video.title, pk, video.id, 0, ct⟩, store, 1⟩) ∧
    (∀ lobj, headObject store lk = some lobj →
      (∀ obj, headObject store pk = some obj →
        metadataMatchesYouTubeVideo obj.metadata video.id = false) →
      downloadYouTubeVideo store pfx video fetch =
        ⟨.skipped ⟨video.title, lk, video.id, 0, ct⟩, store, 1⟩) ∧
    (∀ obj, headObject store pk = some obj →
      metadataMatchesYouTubeVideo obj.metadata video.id = false →
      headObject store lk = none →
      (∀ item, (downloadYouTubeVideo store pfx video fetch).outcome = .imported item →
        item.key = lk) ∧
      headObject (downloadYouTubeVideo store pfx video fetch).store pk = some obj) ∧
    (headObject store pk = none → headObject store lk = none →
      ∀ item, (downloadYouTubeVideo store pfx video fetch).outcome = .imported item →
        item.key = pk) := by
  subst hf2 hct hpk hlk
  refine ⟨?_, ?_, ?_, ?_⟩
  · intro obj hpo hmm
    exact download_eq_skipPrimary store pfx video fetch fm obj hsel hse hpf hpo hmm
  · intro lobj hlo hnm
    rcases hpo : headObject store
        (youtubePrimaryKey pfx video.title (fixupContentLength fm fetch.sizeHint)) with
      _ | obj
    · rw [download_eq_afterPrimary_none store pfx video fetch fm hsel hse hpf hpo]
      exact afterPrimary_eq_skipLegacy store video fetch _ _ _ _ false lobj hlf hlo
    · rw [download_eq_afterPrimary_some store pfx video fetch fm obj hsel hse hpf hpo
        (hnm obj hpo)]
      exact afterPrimary_eq_skipLegacy store video fetch _ _ _ _ true lobj hlf hlo
  · intro obj hpo hmm hlo
    rw [download_eq_afterPrimary_some store pfx video fetch fm obj hsel hse hpf hpo hmm]
    rcases hpe : fetch.putErr with _ | msg
    · rw [afterPrimary_eq_put store video fetch _ _ _ _ true hlf hlo hpe]
      constructor
      · intro item hitem
        cases hitem
        rfl
      · rw [headObject_putObject_ne]
        · exact hpo
        · exact (legacyKey_ne_primaryKey pfx video.title video.id
            (fixupContentLength fm fetch.sizeHint)).symm
    · rw [afterPrimary_eq_putErr store video fetch _ _ _ _ true msg hlf hlo hpe]
      refine ⟨fun item hitem => ?_, hpo⟩
      simp at hitem
  · intro hpo hlo item hitem
    rw [download_eq_afterPrimary_none store pfx video fetch fm hsel hse hpf hpo] at hitem
    rcases hpe : fetch.putErr with _ | msg
    · rw [afterPrimary_eq_put store video fetch _ _ _ _ false hlf hlo hpe] at hitem
      cases hitem
      rfl
    · rw [afterPrimary_eq_putErr store video fetch _ _ _ _ false msg hlf hlo hpe] at hitem
      cases hitem

/-- Shared concrete transfer inputs for witnesses: one audio mp4 encoding. -/
def exFmt : Format := ⟨"video/mp4", 2, 10, 0⟩

def exVideoT : Video := ⟨"id1", "T", [exFmt]⟩

def exFetchOk : VideoFetch := ⟨none, 0, none, none, none, 100⟩

def exStorePrim : ObjectStore :=
  [("T.mp4", ⟨"video/mp4", [("bucketbird-video-id", "id1")]⟩)]

/-- Witness for C2, exercising rule (1): the primary key holds an object
tagged with this item's sourceId, so the plan reports a skip with the
primary key and the store is untouched. -/
theorem dedup_plan_spec_witness :
    downloadYouTubeVideo exStorePrim "" exVideoT exFetchOk =
      ⟨.skipped ⟨"T", "T.mp4", "id1", 0, "video/mp4"⟩, exStorePrim, 1⟩ :=
  (dedup_plan_spec exStorePrim "" exVideoT exFetchOk exFmt exFmt "video/mp4"
      "T.mp4" "T-id1.mp4" rfl rfl rfl rfl rfl rfl rfl rfl).1
    ⟨"video/mp4", [("bucketbird-video-id", "id1")]⟩ rfl rfl

/-! ### C7: closing of the source stream -/

/-- Close counting over the transfer tail: a legacy-check fault closes the
stream exactly once (the wrapper does not exist yet); once the two head
checks have passed without a skip, the only remaining failure is the write,
which happens after the wrapper is built and therefore closes the stream
exactly twice, as does a successful import. -/
theorem afterPrimary_close (store : ObjectStore) (video : Video)
    (fetch : VideoFetch) (ct pk lk : String) (fm : Format) (pe : Bool) :
    (1 ≤ (downloadAfterPrimary store video fetch ct pk lk fm pe).closeCount ∧
      (downloadAfterPrimary store video fetch ct pk lk fm pe).closeCount ≤ 2) ∧
    (∀ item, (downloadAfterPrimary store video fetch ct pk lk fm pe).outcome =
        .skipped item →
      (downloadAfterPrimary store video fetch ct pk lk fm pe).closeCount = 1) ∧
    (∀ item, (downloadAfterPrimary store video fetch ct pk lk fm pe).outcome =
        .imported item →
      (downloadAfterPrimary store video fetch ct pk lk fm pe).closeCount = 2) ∧
    (∀ msg, fetch.headLegacyFault = some msg →
      (downloadAfterPrimary store video fetch ct pk lk fm pe).closeCount = 1) ∧
    (fetch.headLegacyFault = none →
      ∀ msg, (downloadAfterPrimary store video fetch ct pk lk fm pe).outcome =
          .failed msg →
        (downloadAfterPrimary store video fetch ct pk lk fm pe).closeCount = 2) := by
  rcases hlf : fetch.headLegacyFault with _ | lmsg
  · rcases hlo : headObject store lk with _ | lobj
    · rcases hpe : fetch.putErr with _ | m
      · rw [afterPrimary_eq_put store video fetch ct pk lk fm pe hlf hlo hpe]
        exact ⟨⟨by simp, by simp⟩, fun it hit => by simp at hit, fun it hit => rfl,
          fun msg hmsg => Option.noConfusion hmsg,
          fun _ msg hmsg => by simp at hmsg⟩
      · rw [afterPrimary_eq_putErr store video fetch ct pk lk fm pe m hlf hlo hpe]
        exact ⟨⟨by simp, by simp⟩, fun it hit => by simp at hit,
          fun it hit => by simp at hit,
          fun msg hmsg => Option.noConfusion hmsg,
          fun _ msg hmsg => rfl⟩
    · rw [afterPrimary_eq_skipLegacy store video fetch ct pk lk fm pe lobj hlf hlo]
      exact ⟨⟨by simp, by simp⟩, fun it hit => rfl, fun it hit => by simp at hit,
        fun msg hmsg => Option.noConfusion hmsg,
        fun _ msg hmsg => by simp at hmsg⟩
  · rw [afterPrimary_eq_failLegacy store video fetch ct pk lk fm pe lmsg hlf]
    exact ⟨⟨by simp, by simp⟩, fun it hit => by simp at hit, fun it hit => by simp at hit,
      fun msg hmsg => rfl,
      fun hnone msg hmsg => Option.noConfusion hnone⟩

/-- C7 (amended): on every path where the source stream was opened it is
closed at least once and at most twice, and the count is exact on every
path: a path that returns before the progress wrapper exists — a skip, or a
pre-wrapper error (a fault of either existence check) — closes it exactly
once, while a path that builds the wrapper — a successful import, or a
failure once both existence checks have passed (which can only be the
write) — closes it twice: once through the wrapper's deferred `Close` and
once through the direct deferred `stream.Close()`. -/
theorem stream_close_spec (store : ObjectStore) (pfx : String) (video : Video)
    (fetch : VideoFetch) (fm : Format)
    (hsel : selectYouTubeFormat video = .ok fm)
    (hse : fetch.streamErr = none) :
    (1 ≤ (downloadYouTubeVideo store pfx video fetch).closeCount ∧
      (downloadYouTubeVideo store pfx video fetch).closeCount ≤ 2) ∧
    (∀ item, (downloadYouTubeVideo store pfx video fetch).outcome = .skipped item →
      (downloadYouTubeVideo store pfx video fetch).closeCount = 1) ∧
    (∀ item, (downloadYouTubeVideo store pfx video fetch).outcome = .imported item →
      (downloadYouTubeVideo store pfx video fetch).closeCount = 2) ∧
    (∀ msg, fetch.headPrimaryFault = some msg →
      (downloadYouTubeVideo store pfx video fetch).closeCount = 1) ∧
    (fetch.headPrimaryFault = none →
      ∀ msg, fetch.headLegacyFault = some msg →
        (downloadYouTubeVideo store pfx video fetch).closeCount = 1) ∧
    (fetch.headPrimaryFault = none → fetch.headLegacyFault = none →
      ∀ msg, (downloadYouTubeVideo store pfx video fetch).outcome = .failed msg →
        (downloadYouTubeVideo store pfx video fetch).closeCount = 2) := by
  rcases hpf : fetch.headPrimaryFault with _ | pmsg
  · rcases hpo : headObject store
        (youtubePrimaryKey pfx video.title (fixupContentLength fm fetch.sizeHint)) with
      _ | obj
    · rw [download_eq_afterPrimary_none store pfx video fetch fm hsel hse hpf hpo]
      rcases afterPrimary_close store video fetch
          (contentTypeFromMime (fixupContentLength fm fetch.sizeHint).mimeType)
          (youtubePrimaryKey pfx video.title (fixupContentLength fm fetch.sizeHint))
          (youtubeLegacyKey pfx video.title video.id (fixupContentLength fm fetch.sizeHint))
          (fixupContentLength fm fetch.sizeHint) false with
        ⟨hb, hsk, him, hlf1, hlf2⟩
      exact ⟨hb, hsk, him, fun msg hmsg => Option.noConfusion hmsg,
        fun _ msg hmsg => hlf1 msg hmsg, fun _ hln msg hmsg => hlf2 hln msg hmsg⟩
    · rcases hmm : metadataMatchesYouTubeVideo obj.metadata video.id with _ | _
      · rw [download_eq_afterPrimary_some store pfx video fetch fm obj hsel hse hpf hpo hmm]
        rcases afterPrimary_close store video fetch
            (contentTypeFromMime (fixupContentLength fm fetch.sizeHint).mimeType)
            (youtubePrimaryKey pfx video.title (fixupContentLength fm fetch.sizeHint))
            (youtubeLegacyKey pfx video.title video.id (fixupContentLength fm fetch.sizeHint))
            (fixupContentLength fm fetch.sizeHint) true with
          ⟨hb, hsk, him, hlf1, hlf2⟩
        exact ⟨hb, hsk, him, fun msg hmsg => Option.noConfusion hmsg,
          fun _ msg hmsg => hlf1 msg hmsg, fun _ hln msg hmsg => hlf2 hln msg hmsg⟩
      · rw [download_eq_skipPrimary store pfx video fetch fm obj hsel hse hpf hpo hmm]
        exact ⟨⟨by simp, by simp⟩, fun it hit => rfl, fun it hit => by simp at hit,
          fun msg hmsg => Option.noConfusion hmsg,
          fun _ msg hmsg => rfl, fun _ _ msg hmsg => by simp at hmsg⟩
  · rw [download_eq_failHeadPrimary store pfx video fetch fm pmsg hsel hse hpf]
    exact ⟨⟨by simp, by simp⟩, fun it hit => by simp at hit, fun it hit => by simp at hit,
      fun msg hmsg => rfl,
      fun hnone msg hmsg => Option.noConfusion hnone,
      fun hnone _ msg hmsg => Option.noConfusion hnone⟩

/-- Witness for C7 at two concrete paths: a skip closes the stream exactly
once, and a failed write (the wrapper already built) closes it exactly
twice. -/
theorem stream_close_spec_witness :
    (downloadYouTubeVideo exStorePrim "" exVideoT exFetchOk).closeCount = 1 ∧
    (downloadYouTubeVideo [] "" exVideoT
        ⟨none, 0, none, none, some "put failed", 0⟩).closeCount = 2 :=
  ⟨(stream_close_spec exStorePrim "" exVideoT exFetchOk exFmt rfl rfl).2.1
      ⟨"T", "T.mp4", "id1", 0, "video/mp4"⟩ rfl,
    (stream_close_spec [] "" exVideoT ⟨none, 0, none, none, some "put failed", 0⟩
        exFmt rfl rfl).2.2.2.2.2 rfl rfl "put failed" rfl⟩

/-- Counterexample to C7 as stated: on the successful-import path the
underlying stream is closed twice (once by the wrapper's deferred `Close`,
once by the direct deferred `stream.Close()`), not exactly once. -/
theorem stream_close_counterexample :
    (downloadYouTubeVideo [] "" exVideoT exFetchOk).outcome =
      .imported ⟨"T", "T.mp4", "id1", 100, "video/mp4"⟩ ∧
    (downloadYouTubeVideo [] "" exVideoT exFetchOk).closeCount = 2 ∧
    (downloadYouTubeVideo [] "" exVideoT exFetchOk).closeCount ≠ 1 := by
  refine ⟨rfl, rfl, ?_⟩
  intro h
  exact absurd ((rfl : (downloadYouTubeVideo [] "" exVideoT exFetchOk).closeCount = 2)
    ▸ h) (by decide)

/-! ### Batch-loop lemmas -/

theorem headObject_putObject_mono (store : ObjectStore) (k : String) (o : StoredObject)
    (k2 : String) (h : (headObject store k2).isSome = true) :
    (headObject (putObject store k o) k2).isSome = true := by
  by_cases hk : k2 = k
  · subst hk
    rw [headObject_putObject_self]
    rfl
  · rw [headObject_putObject_ne store k o k2 hk]
    exact h

theorem download_failed_store (store : ObjectStore) (pfx : String) (video : Video)
    (fetch : VideoFetch) (msg : String)
    (h : (downloadYouTubeVideo store pfx video fetch).outcome = .failed msg) :
    (downloadYouTubeVideo store pfx video fetch).store = store := by
  rcases download_shape store pfx video fetch with
    ⟨m, heq, _⟩ | ⟨m, heq⟩ | ⟨m, heq⟩ | ⟨it, heq⟩ | ⟨it, obj, heq, _⟩ <;>
    (rw [heq] at h ⊢; try first | rfl | simp at h)

theorem download_skipped_store (store : ObjectStore) (pfx : String) (video : Video)
    (fetch : VideoFetch) (item : YouTubeImportedItem)
    (h : (downloadYouTubeVideo store pfx video fetch).outcome = .skipped item) :
    (downloadYouTubeVideo store pfx video fetch).store = store := by
  rcases download_shape store pfx video fetch with
    ⟨m, heq, _⟩ | ⟨m, heq⟩ | ⟨m, heq⟩ | ⟨it, heq⟩ | ⟨it, obj, heq, _⟩ <;>
    (rw [heq] at h ⊢; try first | rfl | simp at h)

/-- An imported item was written under a key that did not exist before the
write, and the store after the call is exactly the store plus that write. -/
theorem download_imported_fresh (store : ObjectStore) (pfx : String) (video : Video)
    (fetch : VideoFetch) (item : YouTubeImportedItem)
    (h : (downloadYouTubeVideo store pfx video fetch).outcome = .imported item) :
    headObject store item.key = none ∧
      ∃ obj, (downloadYouTubeVideo store pfx video fetch).store =
        putObject store item.key obj := by
  rcases download_shape store pfx video fetch with
    ⟨m, heq, _⟩ | ⟨m, heq⟩ | ⟨m, heq⟩ | ⟨it, heq⟩ | ⟨it, obj, heq, hfresh⟩
  · rw [heq] at h; simp at h
  · rw [heq] at h; simp at h
  · rw [heq] at h; simp at h
  · rw [heq] at h; simp at h
  · rw [heq] at h
    simp only [] at h
    have : it = item := by injection h
    subst this
    exact ⟨hfresh, obj, by rw [heq]⟩

/-- Combined invariant of the per-item loop: an `ok` return preserves the
result kind; grows `imported + skipped + len(errors)` by exactly the number
of processed items; preserves `totalBytes = sum of item sizes` and
`len(items) = imported`; and, when every accumulated item is present in the
store, preserves distinctness of the accumulated destination keys. -/
theorem importLoop_spec (pfx : String) (fetch : Nat → VideoFetch) (cancelAt : Option Nat)
    (videos : List Video) :
    ∀ (i : Nat) (res : YouTubeImportResult) (store : ObjectStore)
      (res' : YouTubeImportResult) (store' : ObjectStore),
      importLoop pfx fetch cancelAt videos i res store = .ok (res', store') →
      res'.kind = res.kind ∧
      res'.imported + res'.skipped + res'.errors.length =
        res.imported + res.skipped + res.errors.length + videos.length ∧
      (res.totalBytes = (res.items.map (fun it => it.sizeBytes)).sum →
        res'.totalBytes = (res'.items.map (fun it => it.sizeBytes)).sum) ∧
      (res.items.length = res.imported → res'.items.length = res'.imported) ∧
      ((∀ it ∈ res.items, (headObject store it.key).isSome = true) →
        (res.items.map (fun it => it.key)).Nodup →
        (res'.items.map (fun it => it.key)).Nodup) := by
  induction videos with
  | nil =>
    intro i res store res' store' h
    cases h
    exact ⟨rfl, by simp, fun hb => hb, fun hl => hl, fun _ hn => hn⟩
  | cons v vs ih =>
    intro i res store res' store' h
    rw [importLoop] at h
    by_cases hc : ctxCancelled cancelAt i = true
    · rw [if_pos hc] at h
      cases h
    · rw [if_neg hc] at h
      rcases ho : (downloadYouTubeVideo store pfx v (fetch i)).outcome with
        msg | it | it <;> simp only [ho] at h
      · -- per-item error: one more error, nothing else changes
        have hst := download_failed_store store pfx v (fetch i) msg ho
        rw [hst] at h
        rcases ih (i + 1) _ _ _ _ h with ⟨hk, hcount, hbytes, hlen, hnodup⟩
        refine ⟨hk, ?_, ?_, ?_, ?_⟩
        · simp only at hcount
          simp [hcount]
          omega
        · intro hb
          exact hbytes (by simpa using hb)
        · intro hl
          exact hlen (by simpa using hl)
        · intro hp hn
          exact hnodup (by simpa using hp) (by simpa using hn)
      · -- skip: one more skip, nothing else changes
        have hst := download_skipped_store store pfx v (fetch i) it ho
        rw [hst] at h
        rcases ih (i + 1) _ _ _ _ h with ⟨hk, hcount, hbytes, hlen, hnodup⟩
        refine ⟨hk, ?_, ?_, ?_, ?_⟩
        · simp only at hcount
          simp [hcount]
          omega
        · intro hb
          exact hbytes (by simpa using hb)
        · intro hl
          exact hlen (by simpa using hl)
        · intro hp hn
          exact hnodup (by simpa using hp) (by simpa using hn)
      · -- import: one item appended under a fresh key
        rcases download_imported_fresh store pfx v (fetch i) it ho with ⟨hfresh, obj, hst⟩
        rw [hst] at h
        rcases ih (i + 1) _ _ _ _ h with ⟨hk, hcount, hbytes, hlen, hnodup⟩
        refine ⟨hk, ?_, ?_, ?_, ?_⟩
        · simp only at hcount
          simp [hcount]
          omega
        · intro hb
          refine hbytes ?_
          simp [hb]
        · intro hl
          refine hlen ?_
          simp [hl]
        · intro hp hn
          refine hnodup ?_ ?_
          · intro jt hjt
            rcases List.mem_append.mp hjt with hjt | hjt
            · exact headObject_putObject_mono store it.key obj jt.key (hp jt hjt)
            · have : jt = it := by simpa using hjt
              subst this
              rw [headObject_putObject_self]
              rfl
          · have hnotin : ∀ jt ∈ res.items, jt.key ≠ it.key := by
              intro jt hjt hkey
              have := hp jt hjt
              rw [hkey, hfresh] at this
              simp at this
            simpa [List.nodup_append] using ⟨hn, fun jt hjt => hnotin jt hjt⟩

/-- The videos and the member errors of a playlist partition its entries. -/
theorem videosFromPlaylist_length (entries : List (PlaylistEntry × Except String Video)) :
    (videosFromPlaylist entries).1.length + (videosFromPlaylist entries).2.length =
      entries.length := by
  induction entries with
  | nil => rfl
  | cons e rest ih =>
    rcases hr : e.2 with msg | v <;> simp [videosFromPlaylist, hr] <;> omega

/-! ### Batch-level theorems (C1, C3, C4, C8) -/

/-- An `ok` batch return came either from a resolved playlist (member errors
pre-recorded, kind "playlist") or from a single resolved video (kind
"video"), and is in both cases the value of the per-item loop. -/
theorem ImportYouTube_ok_inv (url dst : String) (env : ImportEnv) (store : ObjectStore)
    (res : YouTubeImportResult) (store' : ObjectStore)
    (h : ImportYouTube url dst env store = .ok (res, store')) :
    (∃ entries vs errs, env.resolveInput = .playlistOk entries ∧
      videosFromPlaylist entries = (vs, errs) ∧
      importLoop (normalizeObjectPrefix dst) env.fetch env.cancelAt vs 0
        ⟨"playlist", 0, 0, 0, [], errs⟩ store = .ok (res, store')) ∨
    (∃ v, env.resolveInput = .videoOk v ∧
      importLoop (normalizeObjectPrefix dst) env.fetch env.cancelAt [v] 0
        ⟨"video", 0, 0, 0, [], []⟩ store = .ok (res, store')) := by
  by_cases hurl : goTrimSpace url = ""
  · rw [ImportYouTube, if_pos hurl] at h
    simp at h
  · rw [ImportYouTube, if_neg hurl] at h
    rcases hb : env.bucketErr with _ | m <;> rw [hb] at h
    · rcases hs2 : env.storeErr with _ | m <;> rw [hs2] at h
      · rcases hri : env.resolveInput with entries | m | v | m <;>
          simp only [hri, resolveYouTubeVideos] at h
        · rcases hvp : videosFromPlaylist entries with ⟨vs, errs⟩
          rw [hvp] at h
          exact .inl ⟨entries, vs, errs, rfl, hvp, h⟩
        · simp at h
        · exact .inr ⟨v, rfl, h⟩
        · simp at h
      · simp at h
    · simp at h

/-- Number of items the resolver yielded for accounting purposes: the whole
collection size for a playlist (failed members included), one for a single
video; resolution never completes in the fatal cases. -/
def itemsYielded : ResolveInput → Nat
  | .playlistOk entries => entries.length
  | .playlistFatal _ => 0
  | .videoOk _ => 1
  | .videoFatal _ => 0

/-- C1: whenever `ImportYouTube` returns a result,
`imported + skipped + len(errors)` equals the number of items the resolver
yielded, collection-member resolution failures counting toward both the
error sequence and the item total. -/
theorem youtube_import_accounting (url dst : String) (env : ImportEnv)
    (store : ObjectStore) (res : YouTubeImportResult) (store' : ObjectStore)
    (h : ImportYouTube url dst env store = .ok (res, store')) :
    res.imported + res.skipped + res.errors.length = itemsYielded env.resolveInput := by
  rcases ImportYouTube_ok_inv url dst env store res store' h with
    ⟨entries, vs, errs, hri, hvp, hloop⟩ | ⟨v, hri, hloop⟩
  · have hc := (importLoop_spec _ _ _ _ _ _ _ _ _ hloop).2.1
    have hlen := videosFromPlaylist_length entries
    rw [hvp] at hlen
    rw [hri, itemsYielded]
    simp only at hc hlen
    omega
  · have hc := (importLoop_spec _ _ _ _ _ _ _ _ _ hloop).2.1
    rw [hri, itemsYielded]
    simp only [List.length_nil, List.length_cons] at hc
    omega

/-- C4: whenever `ImportYouTube` returns a result, `totalBytes` equals the
sum of `sizeBytes` over the items sequence, and the items sequence holds
exactly the imported (never the skipped) items. -/
theorem youtube_import_totalBytes (url dst : String) (env : ImportEnv)
    (store : ObjectStore) (res : YouTubeImportResult) (store' : ObjectStore)
    (h : ImportYouTube url dst env store = .ok (res, store')) :
    res.totalBytes = (res.items.map (fun it => it.sizeBytes)).sum ∧
    res.items.length = res.imported := by
  rcases ImportYouTube_ok_inv url dst env store res store' h with
    ⟨entries, vs, errs, hri, hvp, hloop⟩ | ⟨v, hri, hloop⟩ <;>
    exact ⟨(importLoop_spec _ _ _ _ _ _ _ _ _ hloop).2.2.1 (by simp),
      (importLoop_spec _ _ _ _ _ _ _ _ _ hloop).2.2.2.1 (by simp)⟩

/-- C3: whenever `ImportYouTube` returns a result, the destination keys of
the items sequence are pairwise distinct within the batch. -/
theorem youtube_import_keys_nodup (url dst : String) (env : ImportEnv)
    (store : ObjectStore) (res : YouTubeImportResult) (store' : ObjectStore)
    (h : ImportYouTube url dst env store = .ok (res, store')) :
    (res.items.map (fun it => it.key)).Nodup := by
  rcases ImportYouTube_ok_inv url dst env store res store' h with
    ⟨entries, vs, errs, hri, hvp, hloop⟩ | ⟨v, hri, hloop⟩ <;>
    exact (importLoop_spec _ _ _ _ _ _ _ _ _ hloop).2.2.2.2 (by simp) (by simp)

/-- C8 (amended): the result kind is `"video"` when the reference resolved
to a single item and `"playlist"` when it resolved to a collection, and
takes no other value. -/
theorem youtube_import_kind (url dst : String) (env : ImportEnv)
    (store : ObjectStore) (res : YouTubeImportResult) (store' : ObjectStore)
    (h : ImportYouTube url dst env store = .ok (res, store')) :
    (res.kind = "video" ∨ res.kind = "playlist") ∧
    (∀ v, env.resolveInput = .videoOk v → res.kind = "video") ∧
    (∀ entries, env.resolveInput = .playlistOk entries → res.kind = "playlist") := by
  rcases ImportYouTube_ok_inv url dst env store res store' h with
    ⟨entries, vs, errs, hri, hvp, hloop⟩ | ⟨v, hri, hloop⟩
  · have hk := (importLoop_spec _ _ _ _ _ _ _ _ _ hloop).1
    simp only at hk
    refine ⟨.inr hk, ?_, fun _ _ => hk⟩
    intro v hv
    rw [hri] at hv
    cases hv
  · have hk := (importLoop_spec _ _ _ _ _ _ _ _ _ hloop).1
    simp only at hk
    refine ⟨.inl hk, fun _ _ => hk, ?_⟩
    intro entries hv
    rw [hri] at hv
    cases hv

/-- A second concrete video whose title sanitizes to the same base name as
`exVideoT` but with a different source id. -/
def exVideoT2 : Video := ⟨"id2", "T", [exFmt]⟩

/-- Concrete batch environment: a playlist of three entries, the middle one
failing to resolve, the outer two sharing a sanitized title. -/
def exEnvPlaylist : ImportEnv :=
  ⟨none, none,
    .playlistOk [(⟨"id1", "T"⟩, .ok exVideoT), (⟨"idE", "Bad"⟩, .error "boom"),
      (⟨"id2", "T"⟩, .ok exVideoT2)],
    fun _ => exFetchOk, none⟩

/-- Concrete batch environment resolving to a single video. -/
def exEnvSingle : ImportEnv :=
  ⟨none, none, .videoOk exVideoT, fun _ => exFetchOk, none⟩

/-- Witness for C1: three playlist entries, one failing member resolution,
give `imported + skipped + len(errors) = 2 + 0 + 1 = 3`. -/
theorem youtube_import_accounting_witness :
    ∃ res store', ImportYouTube "u" "" exEnvPlaylist [] = .ok (res, store') ∧
      res.imported + res.skipped + res.errors.length = 3 :=
  ⟨_, _, rfl, youtube_import_accounting "u" "" exEnvPlaylist [] _ _ rfl⟩

/-- Witness for C4 on the same concrete batch. -/
theorem youtube_import_totalBytes_witness :
    ∃ res store', ImportYouTube "u" "" exEnvPlaylist [] = .ok (res, store') ∧
      res.totalBytes = (res.items.map (fun it => it.sizeBytes)).sum ∧
      res.items.length = res.imported :=
  ⟨_, _, rfl, youtube_import_totalBytes "u" "" exEnvPlaylist [] _ _ rfl⟩

/-- Witness for C3: two distinct source items with the same sanitized title
produce two distinct keys, the second falling back to the ID-suffixed
legacy key. -/
theorem youtube_import_keys_nodup_witness :
    ∃ res store', ImportYouTube "u" "" exEnvPlaylist [] = .ok (res, store') ∧
      (res.items.map (fun it => it.key)).Nodup ∧
      res.items.map (fun it => it.key) = ["T.mp4", "T-id2.mp4"] :=
  ⟨_, _, rfl, youtube_import_keys_nodup "u" "" exEnvPlaylist [] _ _ rfl, rfl⟩

/-- Witness for C8 (amended) on the playlist batch. -/
theorem youtube_import_kind_witness :
    ∃ res store', ImportYouTube "u" "" exEnvPlaylist [] = .ok (res, store') ∧
      res.kind = "playlist" :=
  ⟨_, _, rfl, (youtube_import_kind "u" "" exEnvPlaylist [] _ _ rfl).2.2 _ rfl⟩

/-- Counterexample to C8 as stated: a reference resolving to a single item
yields `kind = "video"`, not `"single"` (and a collection yields
`"playlist"`, not `"collection"`). -/
theorem youtube_import_kind_counterexample :
    ∃ res store', ImportYouTube "u" "" exEnvSingle [] = .ok (res, store') ∧
      res.kind = "video" ∧ res.kind ≠ "single" ∧ res.kind ≠ "collection" :=
  ⟨_, _, rfl, rfl, by decide, by decide⟩

/-! ### C6: the forced end-of-stream progress emission -/

theorem progressReport_read (p : ProgressReaderState) (f : Bool) (now : Nat) :
    (progressReport p f now).read = p.read := by
  unfold progressReport
  split
  · rfl
  · split <;> rfl

theorem progressReport_total (p : ProgressReaderState) (f : Bool) (now : Nat) :
    (progressReport p f now).total = p.total := by
  unfold progressReport
  split
  · rfl
  · split <;> rfl

theorem progressReport_hasCallback (p : ProgressReaderState) (f : Bool) (now : Nat) :
    (progressReport p f now).hasCallback = p.hasCallback := by
  unfold progressReport
  split
  · rfl
  · split <;> rfl

/-- With a callback registered, a forced report always emits one sample
carrying the running byte count. -/
theorem progressReport_forced (p : ProgressReaderState) (now : Nat)
    (hcb : p.hasCallback = true) :
    ∃ sp, (progressReport p true now).emissions =
      p.emissions ++ [⟨p.read, p.total, sp⟩] := by
  unfold progressReport
  rw [hcb]
  simp

theorem progressRead_read (p : ProgressReaderState) (s : ReadStep) :
    (progressRead p s).read = p.read + (s.n : Int) := by
  unfold progressRead
  by_cases hn : 0 < s.n <;> by_cases heof : s.err = ReadResult.eof <;>
    simp [hn, heof, progressReport_read] <;> omega

theorem progressRead_hasCallback (p : ProgressReaderState) (s : ReadStep) :
    (progressRead p s).hasCallback = p.hasCallback := by
  unfold progressRead
  by_cases hn : 0 < s.n <;> by_cases heof : s.err = ReadResult.eof <;>
    simp [hn, heof, progressReport_hasCallback]

theorem progressRun_append (p : ProgressReaderState) (l1 l2 : List ReadStep) :
    progressRun p (l1 ++ l2) = progressRun (progressRun p l1) l2 := by
  induction l1 generalizing p with
  | nil => rfl
  | cons s rest ih => simp [progressRun, ih]

theorem progressRun_read (p : ProgressReaderState) (l : List ReadStep) :
    (progressRun p l).read = p.read + (l.map (fun s => (s.n : Int))).sum := by
  induction l generalizing p with
  | nil => simp [progressRun]
  | cons s rest ih =>
    rw [progressRun, ih, progressRead_read]
    simp
    omega

theorem progressRun_hasCallback (p : ProgressReaderState) (l : List ReadStep) :
    (progressRun p l).hasCallback = p.hasCallback := by
  induction l generalizing p with
  | nil => rfl
  | cons s rest ih => rw [progressRun, ih, progressRead_hasCallback]

theorem getLastD_append_singleton (l : List ProgressSample) (a d : ProgressSample) :
    (l ++ [a]).getLastD d = a := by
  simp

/-- A read that hits end-of-stream forces an emission whose byte count is
the whole running count (all bytes read so far plus this read's bytes). -/
theorem progressRead_eof_last (p : ProgressReaderState) (s : ReadStep)
    (hcb : p.hasCallback = true) (heof : s.err = ReadResult.eof) :
    (progressRead p s).emissions ≠ [] ∧
    ((progressRead p s).emissions.getLastD ⟨0, 0, 0⟩).bytesRead =
      p.read + (s.n : Int) := by
  unfold progressRead
  by_cases hn : 0 < s.n
  · simp only [hn, if_true, heof, if_pos]
    set q := progressReport { p with read := p.read + (s.n : Int) } false s.t1 with hqdef
    have hcbq : q.hasCallback = true := by
      rw [hqdef, progressReport_hasCallback]
      exact hcb
    obtain ⟨sp, hem⟩ := progressReport_forced q s.t2 hcbq
    rw [hem]
    constructor
    · simp
    · rw [getLastD_append_singleton]
      show q.read = p.read + (s.n : Int)
      rw [hqdef, progressReport_read]
  · simp only [hn, if_false, heof, if_pos]
    obtain ⟨sp, hem⟩ := progressReport_forced p s.t2 hcb
    rw [hem]
    constructor
    · simp
    · rw [getLastD_append_singleton]
      show p.read = p.read + (s.n : Int)
      omega

/-- C6: for every read sequence ending with end-of-stream, with a callback
registered, the final read forces an emission regardless of the 500ms
window, and that last emitted sample's `bytesRead` equals the total number
of bytes read from the stream. -/
theorem progress_final_emission (total : Int) (t0 : Nat) (steps : List ReadStep)
    (last : ReadStep) (heof : last.err = ReadResult.eof) :
    (progressRun (newProgressReader total t0 true) (steps ++ [last])).emissions ≠ [] ∧
    ((progressRun (newProgressReader total t0 true)
        (steps ++ [last])).emissions.getLastD ⟨0, 0, 0⟩).bytesRead =
      ((steps ++ [last]).map (fun s => (s.n : Int))).sum := by
  rw [progressRun_append]
  have hrun : progressRun (progressRun (newProgressReader total t0 true) steps) [last] =
      progressRead (progressRun (newProgressReader total t0 true) steps) last := rfl
  rw [hrun]
  have hcb : (progressRun (newProgressReader total t0 true) steps).hasCallback = true := by
    rw [progressRun_hasCallback]
    rfl
  obtain ⟨hne, hlast⟩ :=
    progressRead_eof_last (progressRun (newProgressReader total t0 true) steps) last hcb heof
  refine ⟨hne, ?_⟩
  rw [hlast, progressRun_read]
  simp [newProgressReader]

/-- Witness for C6: a 1000-byte stream read as 600 bytes then 400 bytes with
end-of-stream, both within the 500ms window, still emits a final sample with
`bytesRead = 1000`. -/
theorem progress_final_emission_witness :
    (⟨400, ReadResult.eof, 200, 200⟩ : ReadStep).err = ReadResult.eof ∧
    (progressRun (newProgressReader 1000 0 true)
        ([⟨600, ReadResult.ok, 100, 100⟩] ++ [⟨400, ReadResult.eof, 200, 200⟩])).emissions ≠
      [] ∧
    ((progressRun (newProgressReader 1000 0 true)
        ([⟨600, ReadResult.ok, 100, 100⟩] ++
          [⟨400, ReadResult.eof, 200, 200⟩])).emissions.getLastD ⟨0, 0, 0⟩).bytesRead =
      1000 := by
  refine ⟨rfl, ?_, ?_⟩
  · exact (progress_final_emission 1000 0 [⟨600, ReadResult.ok, 100, 100⟩]
      ⟨400, ReadResult.eof, 200, 200⟩ rfl).1
  · have h := (progress_final_emission 1000 0 [⟨600, ReadResult.ok, 100, 100⟩]
      ⟨400, ReadResult.eof, 200, 200⟩ rfl).2
    rw [h]
    rfl

/-! ### C9: destination-prefix normalization -/

/-- Counterexample to C9 as stated: the single replace pass halves a run of
three slashes, so `a///b` normalizes to `a//b/`, which still contains a run
of duplicate slashes. -/
theorem normalizeObjectPrefix_counterexample :
    normalizeObjectPrefix "a///b" = "a//b/" ∧
    goContains (normalizeObjectPrefix "a///b") "//" = true :=
  ⟨rfl, rfl⟩

theorem replaceDoubleSlash_subset : ∀ (l : List Char), ∀ c ∈ replaceDoubleSlash l, c ∈ l := by
  intro l
  induction l using replaceDoubleSlash.induct with
  | case1 =>
    intro c hc
    simp [replaceDoubleSlash] at hc
  | case2 c =>
    intro d hd
    simpa [replaceDoubleSlash] using hd
  | case3 c1 c2 rest hss ih =>
    intro d hd
    rw [replaceDoubleSlash, if_pos hss] at hd
    rcases List.mem_cons.mp hd with rfl | hd
    · simp [hss.1]
    · simp [ih d hd]
  | case4 c1 c2 rest hss ih =>
    intro d hd
    rw [replaceDoubleSlash, if_neg hss] at hd
    rcases List.mem_cons.mp hd with rfl | hd
    · simp
    · have := ih d hd
      simp only [List.mem_cons] at this ⊢
      tauto

theorem dropWhile_head_false (p : Char → Bool) :
    ∀ (l : List Char) (c : Char) (t : List Char), l.dropWhile p = c :: t → p c = false := by
  intro l
  induction l with
  | nil =>
    intro c t h
    exact absurd h (by simp)
  | cons x xs ih =>
    intro c t h
    rw [List.dropWhile_cons] at h
    by_cases hx : p x = true
    · rw [if_pos hx] at h
      exact ih c t h
    · rw [if_neg hx] at h
      cases h
      simpa using hx

theorem dropWhile_head?_false (p : Char → Bool) (l : List Char) (c : Char)
    (h : (l.dropWhile p).head? = some c) : p c = false := by
  rcases hd : l.dropWhile p with _ | ⟨a, t⟩
  · rw [hd] at h
    simp at h
  · rw [hd] at h
    simp at h
    rw [← h]
    exact dropWhile_head_false p l a t hd

theorem dropWhile_eq_self_of_all_false (p : Char → Bool) (l : List Char)
    (h : ∀ c ∈ l, p c = false) : l.dropWhile p = l := by
  cases l with
  | nil => rfl
  | cons x xs =>
    rw [List.dropWhile_cons, if_neg]
    simp [h x (by simp)]

theorem dropWhileEnd_eq_self_of_all_false (p : Char → Bool) (l : List Char)
    (h : ∀ c ∈ l, p c = false) : dropWhileEnd p l = l := by
  unfold dropWhileEnd
  rw [dropWhile_eq_self_of_all_false p l.reverse fun c hc => h c (by simpa using hc)]
  simp

theorem dropWhileEnd_prefix (p : Char → Bool) (l : List Char) : dropWhileEnd p l <+: l := by
  have hd : l.reverse.dropWhile p <:+ l.reverse := List.dropWhile_suffix p
  have := List.reverse_prefix.mpr hd
  simpa [dropWhileEnd] using this

theorem prefix_head_eq {t l : List Char} (h : t <+: l) (hne : t ≠ []) :
    t.head? = l.head? := by
  rcases h with ⟨r, rfl⟩
  cases t with
  | nil => exact absurd rfl hne
  | cons a t2 => rfl

/-- The slash-trimmed core of the normalized prefix (the value the trailing
slash is appended to). -/
def trimmedSlashCore (s : String) : List Char :=
  dropWhileEnd (fun c => c == '/')
    ((replaceDoubleSlash
        (if (goTrimSpace s).toList.head? = some '/' then (goTrimSpace s).toList.tail
         else (goTrimSpace s).toList)).dropWhile (fun c => c == '/'))

theorem normalizeObjectPrefix_eq (s : String) :
    normalizeObjectPrefix s =
      if trimmedSlashCore s = [] then "" else ⟨trimmedSlashCore s ++ ['/']⟩ := rfl

theorem trimmedSlashCore_head_false (s : String) (c : Char) (t : List Char)
    (h : trimmedSlashCore s = c :: t) : (c == '/') = false := by
  unfold trimmedSlashCore at h
  have hpre := dropWhileEnd_prefix (fun c => c == '/')
    ((replaceDoubleSlash
        (if (goTrimSpace s).toList.head? = some '/' then (goTrimSpace s).toList.tail
         else (goTrimSpace s).toList)).dropWhile (fun c => c == '/'))
  rw [h] at hpre
  refine dropWhile_head?_false (fun c => c == '/')
    (replaceDoubleSlash
      (if (goTrimSpace s).toList.head? = some '/' then (goTrimSpace s).toList.tail
       else (goTrimSpace s).toList)) c ?_
  rw [← prefix_head_eq hpre (by simp)]
  rfl

theorem trimmedSlashCore_last_false (s : String) (c : Char) (t : List Char)
    (h : (trimmedSlashCore s).reverse = c :: t) : (c == '/') = false := by
  unfold trimmedSlashCore at h
  rw [dropWhileEnd, List.reverse_reverse] at h
  exact dropWhile_head_false (fun c => c == '/') _ c t h

/-- C9 (amended): the normalized prefix never starts with a slash, is empty
for an all-slash or all-whitespace input, and otherwise ends with exactly
one trailing slash; duplicate-slash collapsing is a single left-to-right
pass, so an interior run of three or more slashes can leave duplicate
slashes in the output (see the counterexample). -/
theorem normalizeObjectPrefix_spec (s : String) :
    (normalizeObjectPrefix s).toList.head? ≠ some '/' ∧
    ((∀ c ∈ s.toList, c = '/') → normalizeObjectPrefix s = "") ∧
    ((∀ c ∈ s.toList, isGoSpace c = true) → normalizeObjectPrefix s = "") ∧
    (normalizeObjectPrefix s ≠ "" →
      ∃ t, (normalizeObjectPrefix s).toList = t ++ ['/'] ∧ t.getLast? ≠ some '/') := by
  refine ⟨?_, ?_, ?_, ?_⟩
  · -- no leading slash
    rw [normalizeObjectPrefix_eq]
    rcases hl4 : trimmedSlashCore s with _ | ⟨c, t⟩
    · simp
    · rw [if_neg (by simp)]
      have hslash := trimmedSlashCore_head_false s c t hl4
      intro hcontr
      simp at hcontr
      rw [hcontr] at hslash
      simp at hslash
  · -- all-slash input normalizes to the empty prefix
    intro hs
    have hslashns : ∀ c ∈ s.toList, isGoSpace c = false := by
      intro c hc
      rw [hs c hc]
      rfl
    have htrim : goTrimSpace s = s := by
      unfold goTrimSpace
      rw [dropWhile_eq_self_of_all_false _ _ hslashns,
        dropWhileEnd_eq_self_of_all_false _ _ fun c hc => hslashns c (by simpa using hc)]
      cases s
      rfl
    have hcore : trimmedSlashCore s = [] := by
      unfold trimmedSlashCore
      rw [htrim]
      have htail : ∀ c ∈ (if s.toList.head? = some '/' then s.toList.tail else s.toList),
          c = '/' := by
        intro c hc
        by_cases hh : s.toList.head? = some '/'
        · rw [if_pos hh] at hc
          exact hs c (List.mem_of_mem_tail hc)
        · rw [if_neg hh] at hc
          exact hs c hc
      have hempty : (replaceDoubleSlash
          (if s.toList.head? = some '/' then s.toList.tail else s.toList)).dropWhile
            (fun c => c == '/') = [] := by
        rw [List.dropWhile_eq_nil_iff]
        intro x hx
        simp [htail x (replaceDoubleSlash_subset _ x hx)]
      rw [hempty]
      rfl
    rw [normalizeObjectPrefix_eq, hcore]
    rfl
  · -- all-whitespace input normalizes to the empty prefix
    intro hs
    have htrim : goTrimSpace s = "" := by
      unfold goTrimSpace
      have hnil : s.toList.dropWhile isGoSpace = [] := by
        rw [List.dropWhile_eq_nil_iff]
        exact hs
      rw [hnil]
      rfl
    have hcore : trimmedSlashCore s = [] := by
      unfold trimmedSlashCore
      rw [htrim]
      rfl
    rw [normalizeObjectPrefix_eq, hcore]
    rfl
  · -- otherwise exactly one trailing slash
    intro hne
    rw [normalizeObjectPrefix_eq] at hne ⊢
    rcases hl4 : trimmedSlashCore s with _ | ⟨c, t⟩
    · rw [hl4] at hne
      simp at hne
    · rw [if_neg (by simp)]
      refine ⟨c :: t, rfl, ?_⟩
      rcases hr : (c :: t).reverse with _ | ⟨d, r⟩
      · exact absurd hr (by simp)
      · have hlast : (c :: t).getLast? = some d := by
          rw [← List.head?_reverse, hr]
          rfl
        have hds := trimmedSlashCore_last_false s d r (by rw [hl4]; exact hr)
        rw [hlast]
        intro hcontr
        simp at hcontr
        rw [hcontr] at hds
        simp at hds

/-- Witness for C9 (amended), covering the all-slash, all-whitespace and
trailing-slash conjuncts on concrete inputs. -/
theorem normalizeObjectPrefix_spec_witness :
    normalizeObjectPrefix "///" = "" ∧
    normalizeObjectPrefix "  " = "" ∧
    (normalizeObjectPrefix "/media//x/" ≠ "" ∧
      ∃ t, (normalizeObjectPrefix "/media//x/").toList = t ++ ['/'] ∧
        t.getLast? ≠ some '/') :=
  ⟨(normalizeObjectPrefix_spec "///").2.1 (by decide),
    (normalizeObjectPrefix_spec "  ").2.2.1 (by decide),
    by decide,
    (normalizeObjectPrefix_spec "/media//x/").2.2.2 (by decide)⟩

end BucketBird
